import Mathlib

/-!
Verification of the Cartographer scanner driver (scanner.py).

The embedding below translates the numeric and control-flow core of the
driver into Lean: machine floats become exact rationals, the numpy
polynomial becomes an explicit Horner evaluation over the domain-to-window
affine map, Python exceptions become `Except`/sum results, and the
stateful streaming/touch loops become explicit state-passing functions.
-/

set_option maxHeartbeats 1000000
set_option linter.unusedVariables false

/-- Result of `freq_to_dist_raw`: a float that is either finite, one of the
two infinities, or NaN. The code only ever constructs the first three. -/
inductive DistVal where
  | fin (q : ℚ)
  | pinf
  | ninf
  | nan
  deriving DecidableEq, Repr

/-- Errors raised by `dist_to_freq_raw`: the validated-range error for a
distance outside `[min_z, max_z]`, and the model-convergence error raised
when 50 bisection iterations elapse without convergence. -/
inductive ModelError where
  | out_of_range
  | convergence
  deriving DecidableEq, Repr

/-- `ScannerModel` (scanner.py:2393): the per-calibration inverse distance
model. `coef` and the domain pair embed `self.poly`, a
`np.polynomial.Polynomial(coef, domain)` with the default window `[-1, 1]`. -/
structure ScannerModel where
  coef : List ℚ
  domain_begin : ℚ
  domain_end : ℚ
  min_z : ℚ
  max_z : ℚ
  offset : ℚ
  deriving DecidableEq

/-- Horner evaluation of a numpy power-basis coefficient list, low degree
first, as `np.polynomial.polynomial.polyval` does. -/
def horner_eval (coef : List ℚ) (t : ℚ) : ℚ :=
  coef.foldr (fun c acc => c + t * acc) 0

/-- The affine map sending `domain` onto the default window `[-1, 1]`
(numpy `mapdomain`), applied before coefficient evaluation when a
`Polynomial` carrying a nontrivial domain is called. -/
def domain_map (db de x : ℚ) : ℚ :=
  (2 * x - db - de) / (de - db)

/-- Evaluation of `self.poly(x)` for a model built as
`np.polynomial.Polynomial(coef, domain)`. -/
def poly_eval (coef : List ℚ) (db de x : ℚ) : ℚ :=
  horner_eval coef (domain_map db de x)

/-- `ScannerModel.freq_to_dist_raw` (scanner.py:2469-2477). -/
def freq_to_dist_raw (m : ScannerModel) (freq : ℚ) : DistVal :=
  let invfreq := 1 / freq
  if m.domain_end < invfreq then .pinf
  else if invfreq < m.domain_begin then .ninf
  else .fin (poly_eval m.coef m.domain_begin m.domain_end invfreq - m.offset)

/-- The bisection loop body of `ScannerModel.dist_to_freq_raw`
(scanner.py:2493-2502): Python's `for _ in range(0, 50)` becomes explicit
fuel, and falling off the end of the loop raises the convergence error. -/
def bisect (coef : List ℚ) (db de target max_e : ℚ) :
    ℕ → ℚ → ℚ → Except ModelError ℚ
  | 0, _, _ => .error .convergence
  | n + 1, b, e =>
    let f := (e + b) / 2
    let v := poly_eval coef db de f
    if |v - target| < max_e then .ok (1 / f)
    else if v < target then bisect coef db de target max_e n f e
    else bisect coef db de target max_e n b f

/-- `ScannerModel.dist_to_freq_raw` (scanner.py:2484-2502): range check,
`dist += self.offset`, then at most 50 bisection iterations over the
polynomial domain. -/
def dist_to_freq_raw (m : ScannerModel) (dist max_e : ℚ) : Except ModelError ℚ :=
  if dist < m.min_z ∨ m.max_z < dist then .error .out_of_range
  else bisect m.coef m.domain_begin m.domain_end (dist + m.offset) max_e 50
    m.domain_begin m.domain_end

/-- C1: for every nonzero frequency, `freq_to_dist_raw` computes
`x = 1/freq` and returns `+inf` when `x > domain.end`, `-inf` when
`x < domain.start`, and otherwise the finite value `polynomial(x) - offset`;
it never returns NaN and never a clamped finite value at the domain
boundary. (`freq ≠ 0` excludes the input on which the Python code raises
`ZeroDivisionError` instead of returning; a calibrated numpy domain is
ordered, whence `domain_begin ≤ domain_end`.) -/
theorem C1_freq_to_dist_raw_sign_convention (m : ScannerModel) (freq : ℚ)
    (hfreq : freq ≠ 0) (hdom : m.domain_begin ≤ m.domain_end) :
    (m.domain_end < 1 / freq → freq_to_dist_raw m freq = .pinf) ∧
    (1 / freq < m.domain_begin → freq_to_dist_raw m freq = .ninf) ∧
    (m.domain_begin ≤ 1 / freq → 1 / freq ≤ m.domain_end →
      freq_to_dist_raw m freq =
        .fin (poly_eval m.coef m.domain_begin m.domain_end (1 / freq) - m.offset)) ∧
    freq_to_dist_raw m freq ≠ .nan := by
  refine ⟨?_, ?_, ?_, ?_⟩
  · intro h
    simp only [freq_to_dist_raw, if_pos h]
  · intro h
    have hne : ¬ m.domain_end < 1 / freq := not_lt.mpr (le_trans (le_of_lt h) hdom)
    simp only [freq_to_dist_raw, if_neg hne, if_pos h]
  · intro h1 h2
    have hne : ¬ m.domain_end < 1 / freq := not_lt.mpr h2
    have hnb : ¬ 1 / freq < m.domain_begin := not_lt.mpr h1
    simp only [freq_to_dist_raw, if_neg hne, if_neg hnb]
  · simp only [freq_to_dist_raw]
    split
    · simp
    · split <;> simp

/-- Witness for C1 at a concrete model and frequency: domain `[0, 1]`,
constant polynomial `3`, offset `1`, frequency `2`, so `1/freq = 1/2` lies
inside the domain and the result is the finite value `2`. -/
theorem C1_freq_to_dist_raw_sign_convention_witness :
    (2 : ℚ) ≠ 0 ∧ (0 : ℚ) ≤ 1 ∧
      freq_to_dist_raw ⟨[3], 0, 1, -10, 10, 1⟩ 2 = .fin 2 := by
  refine ⟨by norm_num, by norm_num, ?_⟩
  have h := C1_freq_to_dist_raw_sign_convention ⟨[3], 0, 1, -10, 10, 1⟩ 2
    (by norm_num) (by norm_num)
  have h3 := h.2.2.1 (by norm_num) (by norm_num)
  rw [h3]
  norm_num [poly_eval, horner_eval, domain_map]

/-- The bisection loop can only fail with the convergence error, never with
the out-of-range error: the range check happens before the loop. -/
theorem bisect_never_out_of_range (coef : List ℚ) (db de target max_e : ℚ) :
    ∀ (n : ℕ) (b e : ℚ),
      bisect coef db de target max_e n b e ≠ .error .out_of_range := by
  intro n
  induction n with
  | zero => intro b e; simp [bisect]
  | succ n ih =>
    intro b e
    simp only [bisect]
    split
    · simp
    · split
      · exact ih _ _
      · exact ih _ _

/-- Any value returned by the bisection loop is `1/f` for some midpoint `f`
inside the current interval whose polynomial value is within tolerance of
the target. -/
theorem bisect_ok_spec (coef : List ℚ) (db de target max_e : ℚ) :
    ∀ (n : ℕ) (b e r : ℚ), b ≤ e →
      bisect coef db de target max_e n b e = .ok r →
      ∃ f : ℚ, b ≤ f ∧ f ≤ e ∧
        |poly_eval coef db de f - target| < max_e ∧ r = 1 / f := by
  intro n
  induction n with
  | zero => intro b e r _ h; simp [bisect] at h
  | succ n ih =>
    intro b e r hbe h
    simp only [bisect] at h
    by_cases habs : |poly_eval coef db de ((e + b) / 2) - target| < max_e
    · rw [if_pos habs] at h
      refine ⟨(e + b) / 2, by linarith, by linarith, habs, ?_⟩
      exact (Except.ok.injEq _ _ ▸ h).symm
    · rw [if_neg habs] at h
      by_cases hv : poly_eval coef db de ((e + b) / 2) < target
      · rw [if_pos hv] at h
        obtain ⟨f, h1, h2, h3, h4⟩ := ih ((e + b) / 2) e r (by linarith) h
        exact ⟨f, by linarith, h2, h3, h4⟩
      · rw [if_neg hv] at h
        obtain ⟨f, h1, h2, h3, h4⟩ := ih b ((e + b) / 2) r (by linarith) h
        exact ⟨f, h1, by linarith, h3, h4⟩

/-- C2: `dist_to_freq_raw(dist, tolerance)` raises the validated-range
error exactly for `dist` outside `[min_z, max_z]`; for `dist` inside the
range it runs at most 50 bisection iterations (the fuel of `bisect`) and
any successful result is `1/f` for a midpoint `f` of the domain whose
polynomial value is within tolerance of `dist + offset`; if the iterations
elapse without convergence the result is the model-convergence error, not a
fallback value. -/
theorem C2_dist_to_freq_raw_spec (m : ScannerModel) (dist max_e : ℚ)
    (hdom : m.domain_begin ≤ m.domain_end) :
    ((dist < m.min_z ∨ m.max_z < dist) ↔
      dist_to_freq_raw m dist max_e = .error .out_of_range) ∧
    (∀ r, dist_to_freq_raw m dist max_e = .ok r →
      ∃ f, m.domain_begin ≤ f ∧ f ≤ m.domain_end ∧
        |poly_eval m.coef m.domain_begin m.domain_end f - (dist + m.offset)| < max_e ∧
        r = 1 / f) ∧
    (m.min_z ≤ dist → dist ≤ m.max_z →
      (∃ r, dist_to_freq_raw m dist max_e = .ok r) ∨
        dist_to_freq_raw m dist max_e = .error .convergence) := by
  refine ⟨⟨?_, ?_⟩, ?_, ?_⟩
  · intro h
    simp only [dist_to_freq_raw, if_pos h]
  · intro h
    by_contra hc
    rw [dist_to_freq_raw, if_neg hc] at h
    exact bisect_never_out_of_range _ _ _ _ _ _ _ _ h
  · intro r h
    rw [dist_to_freq_raw] at h
    split at h
    · cases h
    · exact bisect_ok_spec _ _ _ _ _ _ _ _ _ hdom h
  · intro h1 h2
    have hc : ¬ (dist < m.min_z ∨ m.max_z < dist) := by
      push_neg
      exact ⟨h1, h2⟩
    rw [dist_to_freq_raw, if_neg hc]
    cases hres : bisect m.coef m.domain_begin m.domain_end (dist + m.offset) max_e 50
        m.domain_begin m.domain_end with
    | ok r => exact Or.inl ⟨r, rfl⟩
    | error err =>
      cases err with
      | out_of_range => exact absurd hres (bisect_never_out_of_range _ _ _ _ _ _ _ _)
      | convergence => exact Or.inr rfl

/-- Witness for C2 at a concrete model: the polynomial is `x - 2` over the
domain `[1, 3]` with range `[-10, 10]`, and the out-of-range distance `20`
yields the validated-range error. -/
theorem C2_dist_to_freq_raw_spec_witness :
    ((20 : ℚ) < -10 ∨ (10 : ℚ) < 20) ∧
      dist_to_freq_raw ⟨[0, 1], 1, 3, -10, 10, 0⟩ 20 (1 / 1000) =
        .error .out_of_range := by
  have h := C2_dist_to_freq_raw_spec ⟨[0, 1], 1, 3, -10, 10, 0⟩ 20 (1 / 1000)
    (by norm_num)
  exact ⟨Or.inr (by norm_num), h.1.mp (Or.inr (by norm_num))⟩

/-- C3: for every `dist` in `[min_z, max_z]` on which `dist_to_freq_raw`
succeeds, the round trip `freq_to_dist_raw (dist_to_freq_raw dist)` is a
finite value within `2 × tolerance` of `dist`. The hypothesis
`0 < domain_begin` records that the calibrated domain consists of positive
inverse frequencies, so the returned frequency is nonzero. Monotonicity of
the polynomial is not even needed. -/
theorem C3_round_trip_inversion (m : ScannerModel) (dist max_e r : ℚ)
    (hdom : m.domain_begin ≤ m.domain_end) (hpos : 0 < m.domain_begin)
    (hok : dist_to_freq_raw m dist max_e = .ok r) :
    ∃ q, freq_to_dist_raw m r = .fin q ∧ |q - dist| ≤ 2 * max_e := by
  rw [dist_to_freq_raw] at hok
  split at hok
  · cases hok
  · obtain ⟨f, hf1, hf2, hf3, hf4⟩ :=
      bisect_ok_spec _ _ _ _ _ _ _ _ _ hdom hok
    have hrf : 1 / r = f := by rw [hf4, one_div_one_div]
    refine ⟨poly_eval m.coef m.domain_begin m.domain_end f - m.offset, ?_, ?_⟩
    · simp only [freq_to_dist_raw, hrf, if_neg (not_lt.mpr hf2), if_neg (not_lt.mpr hf1)]
    · have habs : |poly_eval m.coef m.domain_begin m.domain_end f - m.offset - dist| =
          |poly_eval m.coef m.domain_begin m.domain_end f - (dist + m.offset)| := by
        apply congrArg
        ring
      rw [habs]
      have := abs_nonneg
        (poly_eval m.coef m.domain_begin m.domain_end f - (dist + m.offset))
      linarith

/-- One-step unfolding of the bisection loop, used to evaluate it on
concrete inputs without unfolding the untaken branches. -/
theorem bisect_succ (coef : List ℚ) (db de target max_e : ℚ) (n : ℕ) (b e : ℚ) :
    bisect coef db de target max_e (n + 1) b e =
      (if |poly_eval coef db de ((e + b) / 2) - target| < max_e
        then .ok (1 / ((e + b) / 2))
        else if poly_eval coef db de ((e + b) / 2) < target
          then bisect coef db de target max_e n ((e + b) / 2) e
          else bisect coef db de target max_e n b ((e + b) / 2)) := rfl

/-- Witness for C3: with the polynomial `x - 2` over the domain `[1, 3]`,
distance `0` inverts at the first midpoint `f = 2` to frequency `1/2`, and
the round trip returns exactly `0`. -/
theorem C3_round_trip_inversion_witness :
    dist_to_freq_raw ⟨[0, 1], 1, 3, -10, 10, 0⟩ 0 (1 / 1000) = .ok (1 / 2) ∧
      ∃ q, freq_to_dist_raw ⟨[0, 1], 1, 3, -10, 10, 0⟩ (1 / 2) = .fin q ∧
        |q - 0| ≤ 2 * (1 / 1000) := by
  have hok : dist_to_freq_raw ⟨[0, 1], 1, 3, -10, 10, 0⟩ 0 (1 / 1000) = .ok (1 / 2) := by
    rw [dist_to_freq_raw, if_neg (by norm_num)]
    rw [show (50 : ℕ) = 49 + 1 from rfl, bisect_succ]
    rw [if_pos (by norm_num [poly_eval, horner_eval, domain_map])]
    norm_num
  exact ⟨hok, C3_round_trip_inversion ⟨[0, 1], 1, 3, -10, 10, 0⟩ 0 (1 / 1000) (1 / 2)
    (by norm_num) (by norm_num) hok⟩

/-- `ScannerTempModel` (scanner.py:2562-2569): the temperature compensation
model. The four bilinear coefficients may be absent (`None`), in which case
compensation is an identity pass-through. -/
structure ScannerTempModel where
  a_a : Option ℚ
  a_b : Option ℚ
  b_a : Option ℚ
  b_b : Option ℚ
  fmin : ℚ
  fmin_temp : ℚ
  deriving DecidableEq

/-- `ScannerTempModel.param_linear` (scanner.py:2571-2572). -/
def param_linear (x a b : ℚ) : ℚ := a * x + b

/-- The quadratic coefficient `A` built in `compensate` (scanner.py:2577-2582). -/
def tc_A (a_a b_a ts : ℚ) : ℚ :=
  4 * (ts * a_a) ^ 2 + 4 * ts * a_a * b_a + b_a ^ 2 + 4 * a_a

/-- The quadratic coefficient `B` built in `compensate` (scanner.py:2583-2589). -/
def tc_B (a_a a_b b_a b_b fmin freq ts : ℚ) : ℚ :=
  8 * ts ^ 2 * a_a * a_b + 4 * ts * (a_a * b_b + a_b * b_a)
    + 2 * b_a * b_b + 4 * a_b - 4 * (freq - fmin) * a_a

/-- The quadratic coefficient `C` built in `compensate` (scanner.py:2590-2595). -/
def tc_C (a_b b_b fmin freq ts : ℚ) : ℚ :=
  4 * (ts * a_b) ^ 2 + 4 * ts * a_b * b_b + b_b ^ 2 - 4 * (freq - fmin) * a_b

/-- `ScannerTempModel.compensate` (scanner.py:2574-2611). `np.sqrt` is
abstracted as the parameter `sqrtf`; the quadratic coefficients are the
named `tc_A`/`tc_B`/`tc_C`, written there inline. -/
def compensate (sqrtf : ℚ → ℚ) (m : ScannerTempModel)
    (freq temp_source temp_target : ℚ) : ℚ :=
  match m.a_a, m.a_b, m.b_a, m.b_b with
  | some a_a, some a_b, some b_a, some b_b =>
    let A := tc_A a_a b_a temp_source
    let B := tc_B a_a a_b b_a b_b m.fmin freq temp_source
    let C := tc_C a_b b_b m.fmin freq temp_source
    if B ^ 2 - 4 * A * C < 0 then
      let param_c := freq
        - param_linear (freq - m.fmin) a_a a_b * temp_source ^ 2
        - param_linear (freq - m.fmin) b_a b_b * temp_source
      param_linear (freq - m.fmin) a_a a_b * temp_target ^ 2
        + param_linear (freq - m.fmin) b_a b_b * temp_target + param_c
    else
      let ax := (sqrtf (B ^ 2 - 4 * A * C) - B) / 2 / A
      let param_a := param_linear ax a_a a_b
      let param_b := param_linear ax b_a b_b
      param_a * (temp_target + param_b / 2 / param_a) ^ 2 + ax + m.fmin
  | _, _, _, _ => freq

/-- The spec's words for the negative-discriminant branch: a direct
quadratic-in-temperature evaluation using the bilinear coefficients
evaluated at `freq - fmin`, with no anchor solve. -/
def compensate_fallback (a_a a_b b_a b_b fmin freq ts tt : ℚ) : ℚ :=
  let pa := param_linear (freq - fmin) a_a a_b
  let pb := param_linear (freq - fmin) b_a b_b
  let pc := freq - pa * ts ^ 2 - pb * ts
  pa * tt ^ 2 + pb * tt + pc

/-- The spec's words for the non-negative-discriminant branch: solve
`ax = (√disc - B) / (2·A)` and return
`param_a·(temp_target + param_b/(2·param_a))² + ax + fmin`. -/
def compensate_anchor (sqrtf : ℚ → ℚ) (a_a a_b b_a b_b fmin freq ts tt : ℚ) : ℚ :=
  let A := tc_A a_a b_a ts
  let B := tc_B a_a a_b b_a b_b fmin freq ts
  let C := tc_C a_b b_b fmin freq ts
  let ax := (sqrtf (B ^ 2 - 4 * A * C) - B) / (2 * A)
  let pa := param_linear ax a_a a_b
  let pb := param_linear ax b_a b_b
  pa * (tt + pb / (2 * pa)) ^ 2 + ax + fmin

/-- C4: for every frequency and any temperatures, if any of the
coefficients `a_a, a_b, b_a, b_b` is absent, `compensate` returns the
frequency unchanged: compensation is an identity pass-through. -/
theorem C4_compensate_identity_when_unset (sqrtf : ℚ → ℚ) (m : ScannerTempModel)
    (freq ts tt : ℚ)
    (h : m.a_a = none ∨ m.a_b = none ∨ m.b_a = none ∨ m.b_b = none) :
    compensate sqrtf m freq ts tt = freq := by
  obtain ⟨fa, fb, fc, fd, fmin, ftemp⟩ := m
  cases fa <;> cases fb <;> cases fc <;> cases fd <;> simp_all [compensate]

/-- Witness for C4 at a concrete model with `a_a` unset. -/
theorem C4_compensate_identity_when_unset_witness :
    (ScannerTempModel.mk none (some 1) (some 1) (some 1) 5 20).a_a = none ∧
      compensate id (ScannerTempModel.mk none (some 1) (some 1) (some 1) 5 20) 7 1 2 = 7 :=
  ⟨rfl, C4_compensate_identity_when_unset id _ 7 1 2 (Or.inl rfl)⟩

/-- C5: with all coefficients present, `compensate` branches exactly on the
sign of the discriminant `B² - 4AC`: negative discriminant takes the direct
quadratic-in-temperature fallback (returning a value, not an error), and a
non-negative discriminant solves `ax = (√disc - B)/(2A)` and returns
`param_a·(temp_target + param_b/(2·param_a))² + ax + fmin`. -/
theorem C5_compensate_discriminant_branches (sqrtf : ℚ → ℚ) (m : ScannerTempModel)
    (a_a a_b b_a b_b freq ts tt : ℚ)
    (haa : m.a_a = some a_a) (hab : m.a_b = some a_b)
    (hba : m.b_a = some b_a) (hbb : m.b_b = some b_b) :
    (tc_B a_a a_b b_a b_b m.fmin freq ts ^ 2
        - 4 * tc_A a_a b_a ts * tc_C a_b b_b m.fmin freq ts < 0 →
      compensate sqrtf m freq ts tt =
        compensate_fallback a_a a_b b_a b_b m.fmin freq ts tt) ∧
    (0 ≤ tc_B a_a a_b b_a b_b m.fmin freq ts ^ 2
        - 4 * tc_A a_a b_a ts * tc_C a_b b_b m.fmin freq ts →
      compensate sqrtf m freq ts tt =
        compensate_anchor sqrtf a_a a_b b_a b_b m.fmin freq ts tt) := by
  obtain ⟨fa, fb, fc, fd, fmin, ftemp⟩ := m
  simp only at haa hab hba hbb
  subst haa hab hba hbb
  constructor
  · intro hneg
    simp only [compensate, compensate_fallback]
    rw [if_pos hneg]
  · intro hnn
    simp only [compensate, compensate_anchor]
    rw [if_neg (not_lt.mpr hnn)]
    simp only [div_div]

/-- Witness for C5: with `a_a=1, a_b=0, b_a=0, b_b=2, fmin=0` at
`freq = 0, ts = 0`, the discriminant is `-64 < 0`, the fallback branch is
taken, and at `tt = 3` it evaluates to `6`. -/
theorem C5_compensate_discriminant_branches_witness :
    (tc_B 1 0 0 2 0 0 0 ^ 2 - 4 * tc_A 1 0 0 * tc_C 0 2 0 0 0 < 0) ∧
      compensate id (ScannerTempModel.mk (some 1) (some 0) (some 0) (some 2) 0 0) 0 0 3 =
        compensate_fallback 1 0 0 2 0 0 0 3 ∧
      compensate_fallback 1 0 0 2 0 0 0 3 = 6 := by
  have hneg : tc_B 1 0 0 2 0 0 0 ^ 2 - 4 * tc_A 1 0 0 * tc_C 0 2 0 0 0 < 0 := by
    norm_num [tc_A, tc_B, tc_C]
  refine ⟨hneg, ?_, by norm_num [compensate_fallback, param_linear]⟩
  exact (C5_compensate_discriminant_branches id
    (ScannerTempModel.mk (some 1) (some 0) (some 0) (some 2) 0 0)
    1 0 0 2 0 0 3 rfl rfl rfl rfl).1 hneg

/-- `AlphaBetaFilter` (scanner.py:2705-2735): fixed-gain tracking filter.
`xl`/`vl`/`tl` are the position estimate, velocity estimate and last update
time; `reset` puts back the "uninitialized" (`None`) state. -/
structure AlphaBetaFilter where
  alpha : ℚ
  beta : ℚ
  xl : Option ℚ
  vl : ℚ
  tl : Option ℚ
  deriving DecidableEq

/-- `AlphaBetaFilter.reset` (scanner.py:2711-2714). -/
def AlphaBetaFilter.reset (f : AlphaBetaFilter) : AlphaBetaFilter :=
  { f with xl := none, vl := 0, tl := none }

/-- `AlphaBetaFilter.update` (scanner.py:2716-2732), returning the smoothed
value together with the updated filter state. -/
def AlphaBetaFilter.update (f : AlphaBetaFilter) (time meas : ℚ) :
    ℚ × AlphaBetaFilter :=
  let xl := f.xl.getD meas
  let dt := match f.tl with
    | some tl => time - tl
    | none => 0
  let xk := xl + f.vl * dt
  let vk := f.vl
  let rk := meas - xk
  let xk1 := xk + f.alpha * rk
  let vk1 := if 0 < dt then vk + f.beta / dt * rk else vk
  (xk1, { f with xl := some xk1, vl := vk1, tl := some time })

/-- Feeding the filter a constant measurement stream with a fixed sample
interval: the `n`-th call happens at time `t0 + n·dt`. -/
def AlphaBetaFilter.feed (f : AlphaBetaFilter) (t0 dt meas : ℚ) : ℕ → AlphaBetaFilter
  | 0 => f
  | n + 1 => ((AlphaBetaFilter.feed f t0 dt meas n).update (t0 + n * dt) meas).2

/-- The first update after a reset returns the measurement itself, with a
zero velocity estimate. -/
theorem abf_update_after_reset (f : AlphaBetaFilter) (time meas : ℚ) :
    f.reset.update time meas =
      (meas, ⟨f.alpha, f.beta, some meas, 0, some time⟩) := by
  simp [AlphaBetaFilter.reset, AlphaBetaFilter.update]

/-- A filter locked onto the measurement (position = measurement, velocity
zero) stays locked under a further update with the same measurement. -/
theorem abf_update_locked (alpha beta tl time meas : ℚ) :
    AlphaBetaFilter.update ⟨alpha, beta, some meas, 0, some tl⟩ time meas =
      (meas, ⟨alpha, beta, some meas, 0, some time⟩) := by
  simp [AlphaBetaFilter.update]

/-- After `n ≥ 1` constant-stream updates from the reset state, the filter
state is exactly locked on the measurement. -/
theorem abf_feed_locked (f : AlphaBetaFilter) (t0 dt meas : ℚ) :
    ∀ n : ℕ, 1 ≤ n →
      f.reset.feed t0 dt meas n =
        ⟨f.alpha, f.beta, some meas, 0, some (t0 + (n - 1 : ℕ) * dt)⟩ := by
  intro n
  induction n with
  | zero => intro h; cases h
  | succ n ih =>
    intro _
    by_cases hn : 1 ≤ n
    · have hcast : ((n - 1 : ℕ) : ℚ) = (n : ℚ) - 1 := by
        push_cast [Nat.cast_sub hn]
        ring
      simp only [AlphaBetaFilter.feed, ih hn, abf_update_locked]
      simp
    · have hn0 : n = 0 := by omega
      subst hn0
      simp only [AlphaBetaFilter.feed, abf_update_after_reset]

/-- C9: for every `α ∈ (0,1)` and `β ∈ (0,1)`, a constant measurement
stream with fixed positive `dt` starting from the reset state makes the
position estimate equal the measurement and the velocity estimate `0` from
the very first step on (convergence within a bounded number of steps —
here one step); on the first call after a reset the returned position
estimate equals the measurement and the velocity estimate is `0`. -/
theorem C9_filter_constant_stream_convergence (alpha beta : ℚ)
    (xl0 : Option ℚ) (v0 : ℚ) (tl0 : Option ℚ) (t0 dt meas : ℚ)
    (ha1 : 0 < alpha) (ha2 : alpha < 1) (hb1 : 0 < beta) (hb2 : beta < 1)
    (hdt : 0 < dt) :
    (((AlphaBetaFilter.mk alpha beta xl0 v0 tl0).reset.update t0 meas).1 = meas ∧
      ((AlphaBetaFilter.mk alpha beta xl0 v0 tl0).reset.update t0 meas).2.vl = 0) ∧
    (∀ n : ℕ, 1 ≤ n →
      ((AlphaBetaFilter.mk alpha beta xl0 v0 tl0).reset.feed t0 dt meas n).xl = some meas ∧
      ((AlphaBetaFilter.mk alpha beta xl0 v0 tl0).reset.feed t0 dt meas n).vl = 0) := by
  refine ⟨?_, ?_⟩
  · rw [abf_update_after_reset]
    exact ⟨rfl, rfl⟩
  · intro n hn
    rw [abf_feed_locked _ _ _ _ n hn]
    exact ⟨rfl, rfl⟩

/-- Witness for C9 at `α = β = 1/2`, measurement `7`, `dt = 1`, two steps. -/
theorem C9_filter_constant_stream_convergence_witness :
    (((AlphaBetaFilter.mk (1/2) (1/2) none 0 none).reset.update 0 7).1 = 7 ∧
      ((AlphaBetaFilter.mk (1/2) (1/2) none 0 none).reset.update 0 7).2.vl = 0) ∧
    ((AlphaBetaFilter.mk (1/2) (1/2) none 0 none).reset.feed 0 1 7 2).xl = some 7 ∧
    ((AlphaBetaFilter.mk (1/2) (1/2) none 0 none).reset.feed 0 1 7 2).vl = 0 := by
  have h := C9_filter_constant_stream_convergence (1/2) (1/2) none 0 none 0 1 7
    (by norm_num) (by norm_num) (by norm_num) (by norm_num) (by norm_num)
  exact ⟨h.1, h.2 2 (by norm_num)⟩

/-- An event on the streaming subscription: one `StreamingHelper`
acquisition (`_start_streaming`) or release (`_stop_streaming`). -/
inductive StreamEv where
  | start
  | stop
  deriving DecidableEq, Repr

/-- The scanner's stream-engagement state: `_stream_en` plus counters of
the MCU `<sensor>_stream` enable/disable commands sent so far. -/
structure StreamState where
  stream_en : ℤ
  n_enable : ℕ
  n_disable : ℕ
  deriving DecidableEq, Repr

/-- `Scanner._start_streaming` (scanner.py:1761-1770): the MCU
stream-enable command (`scanner_stream_cmd.send([1])`) is sent exactly when
the engagement count is 0 before the increment. -/
def start_streaming (s : StreamState) : StreamState :=
  if s.stream_en = 0 then
    { stream_en := s.stream_en + 1, n_enable := s.n_enable + 1, n_disable := s.n_disable }
  else { s with stream_en := s.stream_en + 1 }

/-- `Scanner._stop_streaming` (scanner.py:1772-1777): the count is
decremented and the MCU stream-disable command (`send([0])`) is sent
exactly when it reaches 0. -/
def stop_streaming (s : StreamState) : StreamState :=
  if s.stream_en - 1 = 0 then
    { stream_en := s.stream_en - 1, n_enable := s.n_enable, n_disable := s.n_disable + 1 }
  else { s with stream_en := s.stream_en - 1 }

/-- One subscription event applied to the stream state. -/
def stream_step (s : StreamState) : StreamEv → StreamState
  | .start => start_streaming s
  | .stop => stop_streaming s

/-- Running a sequence of subscription events. -/
def run_stream (s : StreamState) : List StreamEv → StreamState
  | [] => s
  | e :: es => run_stream (stream_step s e) es

/-- Starting from engagement count `c`, the events keep the count ≥ 1
throughout and the final event is the stop that brings it to exactly 0:
the shape of `N` overlapping sessions after their first acquisition. -/
def drains : ℤ → List StreamEv → Bool
  | c, [.stop] => c == 1
  | c, .start :: es => decide (1 ≤ c) && drains (c + 1) es
  | c, .stop :: es => decide (2 ≤ c) && drains (c - 1) es
  | _, [] => false

/-- A well-formed event sequence from engagement count `c`: a release never
happens with no session active. -/
def valid_events : ℤ → List StreamEv → Bool
  | _, [] => true
  | c, .start :: es => valid_events (c + 1) es
  | c, .stop :: es => decide (1 ≤ c) && valid_events (c - 1) es

/-- Number of acquisitions in an event sequence. -/
def count_starts : List StreamEv → ℕ
  | [] => 0
  | .start :: es => count_starts es + 1
  | .stop :: es => count_starts es

/-- MCU-side streaming is enabled iff the engagement count is positive:
the state has sent one more enable than disable exactly when the count is
positive, and equally many when it is 0. -/
def engaged_invariant (s : StreamState) : Prop :=
  (0 < s.stream_en ∧ s.n_enable = s.n_disable + 1) ∨
    (s.stream_en = 0 ∧ s.n_enable = s.n_disable)

/-- While the engagement count stays positive, no further enable command is
sent, and the single disable command is sent by the final release. -/
theorem run_stream_drains :
    ∀ (es : List StreamEv) (c : ℤ) (s : StreamState),
      drains c es = true → s.stream_en = c →
      run_stream s es =
        { stream_en := 0, n_enable := s.n_enable, n_disable := s.n_disable + 1 } := by
  intro es
  induction es with
  | nil => intro c s h _; simp [drains] at h
  | cons e es ih =>
    intro c s h hen
    cases e with
    | start =>
      simp only [drains, Bool.and_eq_true, decide_eq_true_eq] at h
      obtain ⟨h1, h2⟩ := h
      have hstep : stream_step s .start = { s with stream_en := s.stream_en + 1 } := by
        simp only [stream_step, start_streaming]
        rw [if_neg (by omega : ¬ s.stream_en = 0)]
      rw [run_stream, hstep]
      exact ih (c + 1) _ h2 (by simp [hen])
    | stop =>
      cases es with
      | nil =>
        have hc : c = 1 := by simpa [drains] using h
        rw [run_stream, run_stream]
        simp only [stream_step, stop_streaming]
        rw [if_pos (by omega : s.stream_en - 1 = 0)]
        congr 1
        omega
      | cons e' es' =>
        simp only [drains, Bool.and_eq_true, decide_eq_true_eq] at h
        obtain ⟨h1, h2⟩ := h
        have hstep : stream_step s .stop = { s with stream_en := s.stream_en - 1 } := by
          simp only [stream_step, stop_streaming]
          rw [if_neg (by omega : ¬ s.stream_en - 1 = 0)]
        rw [run_stream, hstep]
        exact ih (c - 1) _ h2 (by simp [hen])

/-- The enable/disable command counters track the engagement count along
every well-formed event sequence. -/
theorem run_stream_invariant :
    ∀ (es : List StreamEv) (c : ℤ) (s : StreamState),
      valid_events c es = true → s.stream_en = c → 0 ≤ c →
      engaged_invariant s → engaged_invariant (run_stream s es) := by
  intro es
  induction es with
  | nil => intro c s _ _ _ hinv; exact hinv
  | cons e es ih =>
    intro c s h hen hc hinv
    cases e with
    | start =>
      simp only [valid_events] at h
      rw [run_stream]
      by_cases h0 : s.stream_en = 0
      · have hstep : stream_step s .start =
            { stream_en := s.stream_en + 1, n_enable := s.n_enable + 1,
              n_disable := s.n_disable } := by
          simp only [stream_step, start_streaming, if_pos h0]
        rw [hstep]
        refine ih (c + 1) _ h (by simp [hen]) (by omega) ?_
        simp only [engaged_invariant] at hinv ⊢
        omega
      · have hstep : stream_step s .start = { s with stream_en := s.stream_en + 1 } := by
          simp only [stream_step, start_streaming, if_neg h0]
        rw [hstep]
        refine ih (c + 1) _ h (by simp [hen]) (by omega) ?_
        simp only [engaged_invariant] at hinv ⊢
        omega
    | stop =>
      simp only [valid_events, Bool.and_eq_true, decide_eq_true_eq] at h
      obtain ⟨h1, h2⟩ := h
      rw [run_stream]
      by_cases h0 : s.stream_en - 1 = 0
      · have hstep : stream_step s .stop =
            { stream_en := s.stream_en - 1, n_enable := s.n_enable,
              n_disable := s.n_disable + 1 } := by
          simp only [stream_step, stop_streaming, if_pos h0]
        rw [hstep]
        refine ih (c - 1) _ h2 (by simp [hen]) (by omega) ?_
        simp only [engaged_invariant] at hinv ⊢
        omega
      · have hstep : stream_step s .stop = { s with stream_en := s.stream_en - 1 } := by
          simp only [stream_step, stop_streaming, if_neg h0]
        rw [hstep]
        refine ih (c - 1) _ h2 (by simp [hen]) (by omega) ?_
        simp only [engaged_invariant] at hinv ⊢
        omega

/-- C6: for every `N ≥ 1`, a sequence of `N` overlapping acquisitions
(first acquisition followed by events that keep the engagement count
positive until the last release) sends exactly one MCU stream-enable and,
after all release, exactly one stream-disable command, regardless of the
nesting order; moreover along every well-formed event sequence MCU-side
streaming is enabled iff the engagement count is positive. -/
theorem C6_stream_engagement_refcount (N : ℕ) (rest : List StreamEv)
    (hN : 1 ≤ N) (hcount : count_starts (.start :: rest) = N)
    (hdr : drains 1 rest = true) :
    run_stream ⟨0, 0, 0⟩ (.start :: rest) = ⟨0, 1, 1⟩ ∧
    (∀ es : List StreamEv, valid_events 0 es = true →
      engaged_invariant (run_stream ⟨0, 0, 0⟩ es)) := by
  constructor
  · rw [run_stream]
    have hstep : stream_step ⟨0, 0, 0⟩ .start = ⟨1, 1, 0⟩ := by
      simp [stream_step, start_streaming]
    rw [hstep]
    exact run_stream_drains rest 1 ⟨1, 1, 0⟩ hdr rfl
  · intro es hv
    exact run_stream_invariant es 0 ⟨0, 0, 0⟩ hv rfl le_rfl (Or.inr ⟨rfl, rfl⟩)

/-- Witness for C6: two nested sessions, events start-start-stop-stop,
produce exactly one enable and one disable command. -/
theorem C6_stream_engagement_refcount_witness :
    count_starts [StreamEv.start, .start, .stop, .stop] = 2 ∧
      drains 1 [StreamEv.start, .stop, .stop] = true ∧
      run_stream ⟨0, 0, 0⟩ [StreamEv.start, .start, .stop, .stop] = ⟨0, 1, 1⟩ := by
  refine ⟨by decide, by decide, ?_⟩
  exact (C6_stream_engagement_refcount 2 [StreamEv.start, .stop, .stop]
    (by norm_num) (by decide) (by decide)).1

/-- Both branches of `_stop_streaming` decrement the engagement count. -/
theorem stop_streaming_en (s : StreamState) :
    (stop_streaming s).stream_en = s.stream_en - 1 := by
  simp only [stop_streaming]
  split <;> rfl

/-- The scanner state a `StreamingHelper` interacts with in `stop`:
`_stream_callbacks` membership keyed by helper identity, the engagement
state, the outstanding latency-request keys, and the number of times each
helper's completion callback ran. -/
structure ScannerState where
  stream : StreamState
  callbacks : ℕ → Bool
  latency_requests : ℕ → Bool
  completion_calls : ℕ → ℕ

/-- A `StreamingHelper` session (scanner.py:2738-2750): its identity, the
latency key it may hold, and whether a completion callback was supplied. -/
structure StreamingHelper where
  sid : ℕ
  latency_key : Option ℕ
  has_completion_cb : Bool
  deriving DecidableEq

/-- `StreamingHelper.stop` (scanner.py:2764-2772): return unchanged unless
the helper is still registered; otherwise deregister, `_stop_streaming`,
drop the latency request if one is held, and invoke the completion
callback if present. -/
def StreamingHelper.stop (h : StreamingHelper) (st : ScannerState) : ScannerState :=
  if st.callbacks h.sid = false then st
  else
    let st1 : ScannerState :=
      { st with callbacks := fun i => if i = h.sid then false else st.callbacks i }
    let st2 : ScannerState := { st1 with stream := stop_streaming st1.stream }
    let st3 : ScannerState :=
      match h.latency_key with
      | none => st2
      | some k =>
        { st2 with latency_requests := fun i => if i = k then false else st2.latency_requests i }
    if h.has_completion_cb then
      { st3 with completion_calls :=
          fun i => if i = h.sid then st3.completion_calls i + 1 else st3.completion_calls i }
    else st3

/-- C10: `StreamingHelper.stop` is idempotent. For a registered session the
first call removes the callback, decrements the stream engagement count by
exactly one, releases the held latency request and invokes the completion
callback once; a second call is a no-op, so `wait()` calling `stop()` and
the context-manager exit calling it again still decrement the engagement
count exactly once. -/
theorem C10_streaming_helper_stop_idempotent (h : StreamingHelper) (st : ScannerState)
    (hin : st.callbacks h.sid = true) :
    (h.stop st).callbacks h.sid = false ∧
    (h.stop st).stream.stream_en = st.stream.stream_en - 1 ∧
    (∀ k, h.latency_key = some k → (h.stop st).latency_requests k = false) ∧
    (h.has_completion_cb = true →
      (h.stop st).completion_calls h.sid = st.completion_calls h.sid + 1) ∧
    h.stop (h.stop st) = h.stop st ∧
    (h.stop (h.stop st)).stream.stream_en = st.stream.stream_en - 1 := by
  have hne : ¬ st.callbacks h.sid = false := by simp [hin]
  have hcb : (h.stop st).callbacks h.sid = false := by
    obtain ⟨sid, lk, hc⟩ := h
    cases lk <;> cases hc <;> simp [StreamingHelper.stop, hne]
  have hen : (h.stop st).stream.stream_en = st.stream.stream_en - 1 := by
    obtain ⟨sid, lk, hc⟩ := h
    cases lk <;> cases hc <;> simp [StreamingHelper.stop, hne, stop_streaming_en]
  have hlat : ∀ k, h.latency_key = some k → (h.stop st).latency_requests k = false := by
    intro k hk
    obtain ⟨sid, lk, hc⟩ := h
    simp only at hk
    subst hk
    cases hc <;> simp [StreamingHelper.stop, hne]
  have hcomp : h.has_completion_cb = true →
      (h.stop st).completion_calls h.sid = st.completion_calls h.sid + 1 := by
    intro hc'
    obtain ⟨sid, lk, hc⟩ := h
    simp only at hc'
    subst hc'
    cases lk <;> simp [StreamingHelper.stop, hne]
  have hidem : h.stop (h.stop st) = h.stop st := by
    generalize hG : h.stop st = st2 at hcb
    rw [StreamingHelper.stop, if_pos hcb]
  exact ⟨hcb, hen, hlat, hcomp, hidem, by rw [hidem]; exact hen⟩

/-- Witness for C10: a single registered session holding latency key 3 with
a completion callback; the double stop equals the single stop and the
engagement count drops from 1 to exactly 0. -/
theorem C10_streaming_helper_stop_idempotent_witness :
    (StreamingHelper.mk 0 (some 3) true).stop
        ((StreamingHelper.mk 0 (some 3) true).stop
          (ScannerState.mk ⟨1, 1, 0⟩ (fun i => decide (i = 0))
            (fun i => decide (i = 3)) (fun _ => 0))) =
      (StreamingHelper.mk 0 (some 3) true).stop
        (ScannerState.mk ⟨1, 1, 0⟩ (fun i => decide (i = 0))
          (fun i => decide (i = 3)) (fun _ => 0)) ∧
    ((StreamingHelper.mk 0 (some 3) true).stop
        (ScannerState.mk ⟨1, 1, 0⟩ (fun i => decide (i = 0))
          (fun i => decide (i = 3)) (fun _ => 0))).stream.stream_en = 0 := by
  have h := C10_streaming_helper_stop_idempotent (StreamingHelper.mk 0 (some 3) true)
    (ScannerState.mk ⟨1, 1, 0⟩ (fun i => decide (i = 0))
      (fun i => decide (i = 3)) (fun _ => 0)) (by simp)
  exact ⟨h.2.2.2.2.1, by rw [h.2.1]; norm_num⟩

/-- A matrix cell holds a finite float or NaN. `np.empty` leaves arbitrary
memory contents, modelled by an explicit initial-content function. -/
inductive MCell where
  | val (q : ℚ)
  | nan
  deriving DecidableEq, Repr

/-- Insertion into a sorted list of rationals. -/
def insert_sorted (x : ℚ) : List ℚ → List ℚ
  | [] => [x]
  | y :: ys => if x ≤ y then x :: y :: ys else y :: insert_sorted x ys

/-- Insertion sort, used to take the sorted middle for the median. -/
def sort_rat : List ℚ → List ℚ
  | [] => []
  | x :: xs => insert_sorted x (sort_rat xs)

/-- `np.median` (also the module-level `median` helper, scanner.py:3800):
middle of the sorted data for odd length, mean of the two middles for even
length. -/
def median (l : List ℚ) : ℚ :=
  if l.length % 2 = 1 then (sort_rat l).getD (l.length / 2) 0
  else ((sort_rat l).getD (l.length / 2 - 1) 0 + (sort_rat l).getD (l.length / 2) 0) / 2

/-- Pointwise update of a matrix modelled as a function of `(row, column)`. -/
def matrix_set (mat : ℕ → ℕ → MCell) (y x : ℕ) (v : MCell) : ℕ → ℕ → MCell :=
  fun y1 x1 => if y1 = y ∧ x1 = x then v else mat y1 x1

/-- `ScannerMeshHelper._generate_matrix` (scanner.py:3630-3639). `init` is
the uninitialized content `np.empty((res_y, res_x))` starts from; only the
cells present in `raw_clusters` are written: masked-out cells get NaN and
are collected as faulty indexes, all others get
`trigger_distance - median(values)`. -/
def generate_matrix (init : ℕ → ℕ → MCell) (trigger_distance : ℚ)
    (raw_clusters : List ((ℕ × ℕ) × List ℚ)) (mask : Option (ℕ → ℕ → Bool)) :
    (ℕ → ℕ → MCell) × List (ℕ × ℕ) :=
  raw_clusters.foldl
    (fun acc entry =>
      match mask with
      | none =>
        (matrix_set acc.1 entry.1.2 entry.1.1
          (.val (trigger_distance - median entry.2)), acc.2)
      | some mk =>
        if mk entry.1.2 entry.1.1 then
          (matrix_set acc.1 entry.1.2 entry.1.1
            (.val (trigger_distance - median entry.2)), acc.2)
        else
          (matrix_set acc.1 entry.1.2 entry.1.1 .nan,
            acc.2 ++ [(entry.1.2, entry.1.1)]))
    (init, [])

/-- `ScannerMeshHelper._check_matrix` (scanner.py:3678-3694): scan every
in-bounds cell and report the `(xi, yi)` coordinates of all NaN cells, or
`none` when there is nothing to report. -/
def check_matrix (res_x res_y : ℕ) (mat : ℕ → ℕ → MCell) : Option (List (ℕ × ℕ)) :=
  let empty_clusters := (List.range res_y).flatMap
    (fun yi => (List.range res_x).filterMap
      (fun xi => if mat yi xi = .nan then some (xi, yi) else none))
  if empty_clusters.isEmpty then none else some empty_clusters

/-- `ScannerMeshHelper._finalize_matrix` (scanner.py:3696-3715) with no
zero-reference mode configured: `z_offset` stays `None` and the matrix is
returned unchanged. -/
def finalize_matrix (mat : ℕ → ℕ → MCell) : ℕ → ℕ → MCell := mat

/-- C7 (code bug): on a 1×1 grid with no faulty regions where no sample at
all was binned (`raw_clusters` empty), `_generate_matrix` writes nothing,
so the cell keeps whatever `np.empty` left in memory — here the finite
garbage value 0 rather than NaN. `_check_matrix` then finds no NaN, reports
no empty cluster, and the uninitialized value survives through
`_finalize_matrix` into the output mesh, contradicting the claim (and the
code's own "Empty clusters found" report) that every non-faulty zero-sample
cell is reported. -/
theorem C7_empty_cell_escapes_matrix_check :
    generate_matrix (fun _ _ => .val 0) 2 [] none = (fun _ _ => .val 0, []) ∧
    check_matrix 1 1 (generate_matrix (fun _ _ => .val 0) 2 [] none).1 = none ∧
    finalize_matrix (generate_matrix (fun _ _ => .val 0) 2 [] none).1 0 0 = .val 0 := by
  refine ⟨rfl, ?_, rfl⟩
  rfl

/-- The maximum absolute deviation of the samples from their running median
(scanner.py:679-680): `max(abs(sample - average) for sample in samples)`
with `average = np.median(samples)`. -/
def max_deviation (l : List ℚ) : ℚ :=
  (l.map (fun s => |s - median l|)).foldr max 0

/-- Python's `round` to an integer: round half to even. -/
def round_half_even (x : ℚ) : ℤ :=
  if x - ⌊x⌋ < 1 / 2 then ⌊x⌋
  else if 1 / 2 < x - ⌊x⌋ then ⌊x⌋ + 1
  else if ⌊x⌋ % 2 = 0 then ⌊x⌋ else ⌊x⌋ + 1

/-- Python's `round(x, 4)` (scanner.py:682): the deviation is rounded to
four decimal places before being compared against the tolerance. -/
def round4 (x : ℚ) : ℚ := (round_half_even (x * 10000) : ℚ) / 10000

/-- Outcome of the touch-consensus while-loop (scanner.py:624-700):
success with the collected samples and the retry counter, the hard failure
`Exceeded maximum attempts` carrying the retry counter, or out of fuel
(never reached with sufficient fuel). -/
inductive TouchResult where
  | ok (samples : List ℚ) (retries : ℕ)
  | fail (retries : ℕ)
  | spin
  deriving DecidableEq, Repr

/-- The `start_touch` consensus while-loop (scanner.py:624-700). `src i`
is the Z result of the `i`-th probing move. Per iteration: exit when
`num_samples` samples are collected; fail hard when `retries` has reached
`max_retries`; otherwise probe, append, and if the rounded maximum
deviation from the running median exceeds the tolerance, clear the sample
set and increment the retry counter. -/
def touch_loop (src : ℕ → ℚ) (num_samples max_retries : ℕ) (tolerance : ℚ) :
    ℕ → List ℚ → ℕ → ℕ → TouchResult
  | 0, _, _, _ => .spin
  | fuel + 1, samples, retries, idx =>
    if num_samples ≤ samples.length then .ok samples retries
    else if max_retries ≤ retries then .fail retries
    else
      let s1 := samples ++ [src idx]
      if tolerance < round4 (max_deviation s1) then
        touch_loop src num_samples max_retries tolerance fuel [] (retries + 1) (idx + 1)
      else
        touch_loop src num_samples max_retries tolerance fuel s1 retries (idx + 1)

/-- One-step unfolding of the touch loop. -/
theorem touch_loop_step (src : ℕ → ℚ) (ns mr : ℕ) (tol : ℚ)
    (fuel : ℕ) (samples : List ℚ) (r idx : ℕ) :
    touch_loop src ns mr tol (fuel + 1) samples r idx =
      (if ns ≤ samples.length then .ok samples r
       else if mr ≤ r then .fail r
       else if tol < round4 (max_deviation (samples ++ [src idx])) then
         touch_loop src ns mr tol fuel [] (r + 1) (idx + 1)
       else touch_loop src ns mr tol fuel (samples ++ [src idx]) r (idx + 1)) := rfl

/-- The samples an attempt starting at probe index `i0` collects: the
window `src i0, …, src (i0 + k - 1)`. -/
def sample_batch (src : ℕ → ℚ) (i0 k : ℕ) : List ℚ :=
  (List.range k).map (fun j => src (i0 + j))

/-- An attempt starting at probe `i0` whose rounded deviation stays within
tolerance at every prefix: it collects all `num_samples` samples. -/
def good_attempt (src : ℕ → ℚ) (tol : ℚ) (num_samples i0 : ℕ) : Prop :=
  ∀ k, 1 ≤ k → k ≤ num_samples →
    round4 (max_deviation (sample_batch src i0 k)) ≤ tol

/-- An attempt starting at probe `i0` whose rounded deviation first exceeds
the tolerance at its `j`-th sample. -/
def fails_at (src : ℕ → ℚ) (tol : ℚ) (num_samples i0 j : ℕ) : Prop :=
  1 ≤ j ∧ j ≤ num_samples ∧
    (∀ k, 1 ≤ k → k < j →
      round4 (max_deviation (sample_batch src i0 k)) ≤ tol) ∧
    tol < round4 (max_deviation (sample_batch src i0 j))

theorem sample_batch_zero (src : ℕ → ℚ) (i0 : ℕ) : sample_batch src i0 0 = [] := rfl

theorem sample_batch_length (src : ℕ → ℚ) (i0 k : ℕ) :
    (sample_batch src i0 k).length = k := by
  simp [sample_batch]

theorem sample_batch_succ (src : ℕ → ℚ) (i0 k : ℕ) :
    sample_batch src i0 (k + 1) = sample_batch src i0 k ++ [src (i0 + k)] := by
  simp [sample_batch, List.range_succ]

/-- A good attempt collects the remaining samples and exits the loop
successfully with the current retry counter. -/
theorem touch_loop_good_attempt (src : ℕ → ℚ) (ns mr : ℕ) (tol : ℚ) (i0 r : ℕ)
    (hr : r < mr) (hg : good_attempt src tol ns i0) :
    ∀ fuel m, m ≤ ns → ns - m < fuel →
      touch_loop src ns mr tol fuel (sample_batch src i0 m) r (i0 + m) =
        .ok (sample_batch src i0 ns) r := by
  intro fuel
  induction fuel with
  | zero => intro m hm hf; exact absurd hf (by omega)
  | succ fuel ih =>
    intro m hm hf
    rw [touch_loop_step]
    by_cases hdone : ns ≤ m
    · rw [if_pos (by rw [sample_batch_length]; exact hdone)]
      rw [le_antisymm hm hdone]
    · rw [if_neg (by rw [sample_batch_length]; exact hdone)]
      rw [if_neg (by omega)]
      rw [← sample_batch_succ]
      rw [if_neg (not_lt.mpr (hg (m + 1) (by omega) (by omega)))]
      rw [show i0 + m + 1 = i0 + (m + 1) from by omega]
      exact ih (m + 1) (by omega) (by omega)

/-- A failing attempt consumes its `j` samples, clears the sample set and
increments the retry counter, leaving the loop at the next attempt. -/
theorem touch_loop_failed_attempt (src : ℕ → ℚ) (ns mr : ℕ) (tol : ℚ) (i0 j r : ℕ)
    (hr : r < mr) (hfail : fails_at src tol ns i0 j) :
    ∀ d m fuel, m + d = j → 0 < d →
      touch_loop src ns mr tol (d + fuel) (sample_batch src i0 m) r (i0 + m) =
        touch_loop src ns mr tol fuel [] (r + 1) (i0 + j) := by
  obtain ⟨hj1, hj2, hpre, hbad⟩ := hfail
  intro d
  induction d with
  | zero => intro m fuel _ h0; exact absurd h0 (by omega)
  | succ d ih =>
    intro m fuel hmd hd
    have hmj : m < j := by omega
    rw [show d + 1 + fuel = (d + fuel) + 1 from by omega]
    rw [touch_loop_step]
    rw [if_neg (by rw [sample_batch_length]; omega)]
    rw [if_neg (by omega)]
    rw [← sample_batch_succ]
    cases d with
    | zero =>
      have hj : m + 1 = j := by omega
      rw [if_pos (by rw [hj]; exact hbad)]
      rw [show i0 + m + 1 = i0 + j from by omega]
      rw [Nat.zero_add]
    | succ e =>
      rw [if_neg (not_lt.mpr (hpre (m + 1) (by omega) (by omega)))]
      rw [show i0 + m + 1 = i0 + (m + 1) from by omega]
      exact ih (m + 1) fuel (by omega) (by omega)

/-- Walking the loop through `R - r` consecutive failing attempts. -/
theorem touch_loop_walk (src : ℕ → ℚ) (ns mr : ℕ) (tol : ℚ)
    (starts jf : ℕ → ℕ) (R : ℕ) (hR : R ≤ mr)
    (hfails : ∀ t, t < R → fails_at src tol ns (starts t) (jf t) ∧
      starts (t + 1) = starts t + jf t) :
    ∀ k r, r + k = R →
      ∃ F, ∀ fuel,
        touch_loop src ns mr tol (F + fuel) [] r (starts r) =
          touch_loop src ns mr tol fuel [] R (starts R) := by
  intro k
  induction k with
  | zero =>
    intro r hr
    have hrR : r = R := by omega
    subst hrR
    exact ⟨0, fun fuel => by rw [Nat.zero_add]⟩
  | succ k ih =>
    intro r hrk
    have hrR : r < R := by omega
    obtain ⟨hfa, hsucc⟩ := hfails r hrR
    obtain ⟨F, hF⟩ := ih (r + 1) (by omega)
    refine ⟨jf r + F, fun fuel => ?_⟩
    have h1 := touch_loop_failed_attempt src ns mr tol (starts r) (jf r) r
      (by omega) hfa (jf r) 0 (F + fuel) (by omega) (by have := hfa.1; omega)
    simp only [sample_batch_zero, Nat.add_zero] at h1
    rw [← hsucc] at h1
    rw [show jf r + F + fuel = jf r + (F + fuel) from by omega]
    exact h1.trans (hF fuel)

/-- C8 (amended): in the touch-consensus loop the deviation is rounded to
four decimal places before comparison. Whenever the rounded maximum
deviation from the running median exceeds the tolerance, the sample set is
cleared and the retry counter incremented while the loop continues (no
immediate abort); a source that fails `R < max_retries` attempts and then
produces an attempt whose rounded deviation stays within tolerance makes
the loop terminate successfully with `R` retries; a source whose every
attempt exceeds tolerance makes it fail with exactly `max_retries`
retries, not more and not fewer. -/
theorem C8_touch_consensus_retry_loop (src : ℕ → ℚ) (ns mr : ℕ) (tol : ℚ)
    (starts jf : ℕ → ℕ) (hstart0 : starts 0 = 0) (hns : 1 ≤ ns) :
    (∀ fuel samples r idx, samples.length < ns → r < mr →
      tol < round4 (max_deviation (samples ++ [src idx])) →
      touch_loop src ns mr tol (fuel + 1) samples r idx =
        touch_loop src ns mr tol fuel [] (r + 1) (idx + 1)) ∧
    (∀ R, R < mr →
      (∀ t, t < R → fails_at src tol ns (starts t) (jf t) ∧
        starts (t + 1) = starts t + jf t) →
      good_attempt src tol ns (starts R) →
      ∃ F, ∀ fuel, ns < fuel →
        touch_loop src ns mr tol (F + fuel) [] 0 0 =
          .ok (sample_batch src (starts R) ns) R) ∧
    ((∀ t, t < mr → fails_at src tol ns (starts t) (jf t) ∧
        starts (t + 1) = starts t + jf t) →
      ∃ F, ∀ fuel, touch_loop src ns mr tol (F + (fuel + 1)) [] 0 0 = .fail mr) := by
  refine ⟨?_, ?_, ?_⟩
  · intro fuel samples r idx hlen hr hdev
    rw [touch_loop_step, if_neg (by omega), if_neg (by omega), if_pos hdev]
  · intro R hR hfails hg
    obtain ⟨F, hF⟩ :=
      touch_loop_walk src ns mr tol starts jf R (by omega) hfails R 0 (by omega)
    simp only [hstart0] at hF
    refine ⟨F, fun fuel hfuel => ?_⟩
    have h2 := touch_loop_good_attempt src ns mr tol (starts R) R hR hg fuel 0
      (by omega) (by omega)
    simp only [sample_batch_zero, Nat.add_zero] at h2
    exact (hF fuel).trans h2
  · intro hfails
    obtain ⟨F, hF⟩ :=
      touch_loop_walk src ns mr tol starts jf mr le_rfl hfails mr 0 (by omega)
    simp only [hstart0] at hF
    refine ⟨F, fun fuel => ?_⟩
    have h3 : touch_loop src ns mr tol (fuel + 1) [] mr (starts mr) = .fail mr := by
      rw [touch_loop_step]
      rw [if_neg (by simp; omega)]
      rw [if_pos le_rfl]
    exact (hF (fuel + 1)).trans h3

/-- The probe source of the counterexample run: first touch 0, then
0.020008, so the two collected samples sit 0.010004 away from their
median. -/
def touch_src_cx : ℕ → ℚ := fun i => if i = 0 then 0 else 2501 / 125000

/-- C8 counterexample to the claim as stated: with tolerance 0.01 and
samples 0 and 0.020008, the maximum absolute deviation from the running
median is 0.010004, which exceeds the tolerance — yet because the code
rounds the deviation to four decimal places (`round(deviation, 4)` gives
exactly 0.01, not greater than 0.01) the sample set is NOT cleared, no
retry is counted, and the loop terminates successfully keeping both
samples. -/
theorem C8_deviation_exceeds_tolerance_not_cleared :
    touch_loop touch_src_cx 2 5 (1 / 100) 3 [] 0 0 = .ok [0, 2501 / 125000] 0 ∧
    (1 : ℚ) / 100 < max_deviation [0, 2501 / 125000] := by
  constructor
  · have hm1 : max_deviation ([] ++ [touch_src_cx 0]) = 0 := by
      norm_num [touch_src_cx, max_deviation, median, sort_rat, insert_sorted]
    have hm2 : max_deviation ([0] ++ [touch_src_cx 1]) = 2501 / 250000 := by
      norm_num [touch_src_cx, max_deviation, median, sort_rat, insert_sorted]
    rw [show (3 : ℕ) = 2 + 1 from rfl, touch_loop_step]
    rw [if_neg (by norm_num), if_neg (by norm_num)]
    rw [if_neg (by rw [hm1]; norm_num [round4, round_half_even])]
    show touch_loop touch_src_cx 2 5 (1 / 100) 2 [0] 0 1 = .ok [0, 2501 / 125000] 0
    rw [show (2 : ℕ) = 1 + 1 from rfl, touch_loop_step]
    rw [if_neg (by norm_num), if_neg (by norm_num)]
    rw [if_neg (by rw [hm2]; norm_num [round4, round_half_even])]
    show touch_loop touch_src_cx 2 5 (1 / 100) 1 [0, 2501 / 125000] 0 2 =
      .ok [0, 2501 / 125000] 0
    rw [show (1 : ℕ) = 0 + 1 from rfl, touch_loop_step]
    rw [if_pos (by norm_num)]
  · have hmv : max_deviation [0, 2501 / 125000] = 2501 / 250000 := by
      norm_num [max_deviation, median, sort_rat, insert_sorted]
    rw [hmv]
    norm_num

/-- Witness for the amended C8 theorem, exercising the clear-and-retry
step: with samples `[1/2]` and next sample 0 the rounded deviation 1/4
exceeds the tolerance 1/100, so the set is cleared and the retry counter
incremented. -/
theorem C8_touch_consensus_retry_loop_witness :
    touch_loop (fun _ => (0 : ℚ)) 2 3 (1 / 100) (7 + 1) [1 / 2] 0 1 =
      touch_loop (fun _ => (0 : ℚ)) 2 3 (1 / 100) 7 [] 1 2 := by
  have h := (C8_touch_consensus_retry_loop (fun _ => 0) 2 3 (1 / 100)
    (fun _ => 0) (fun _ => 0) rfl (by norm_num)).1
  refine h 7 [1 / 2] 0 1 (by norm_num) (by norm_num) ?_
  show (1 : ℚ) / 100 < round4 (max_deviation ([1 / 2] ++ [0]))
  have hmd : max_deviation ([(1 : ℚ) / 2] ++ [0]) = 1 / 4 := by
    norm_num [max_deviation, median, sort_rat, insert_sorted]
  rw [hmd]
  norm_num [round4, round_half_even]
